import Mathlib

/-!
Verification of the STARRPeaker peak-calling core (starrpeaker/core.py).

The Python source is shallowly embedded over exact rational arithmetic:
numpy/python float values become `ℚ`, genomic coordinates become `ℤ`,
arrays become `List`s, and fallible Python code returns `Except PyErr`.
Transcendental library routines that have no rational realisation
(scipy digamma/trigamma, np.log, np.sqrt, scipy nbinom.cdf, np.log10 and
the Benjamini-Hochberg routine) are abstracted as function parameters,
bundled in `NumEnv`; every theorem quantifies over them, so the results
hold in particular for the true transcendental functions.

Python scalar division by an int zero raises ZeroDivisionError and is
modelled as an `Except` error at the call sites where the source can pass
a Python int zero; numpy float division never raises (it yields inf with
a warning) and is modelled as total rational division.
-/

namespace StarrPeaker

/-- Python exception kinds raised by the code paths modelled here. -/
inductive PyErr where
  | zeroDivision
  | nameError
  | keyError
  | valueError
  | indexError
deriving DecidableEq

/-- Abstract numeric environment: the transcendental / statistical library
routines used by core.py that have no exact rational realisation. -/
structure NumEnv where
  /-- scipy.special.digamma -/
  dg : ℚ → ℚ
  /-- scipy.special.polygamma(1, ·), i.e. `trigamma` of core.py -/
  tg : ℚ → ℚ
  /-- np.log -/
  ln : ℚ → ℚ
  /-- np.sqrt -/
  sqrtQ : ℚ → ℚ
  /-- scipy.stats.nbinom.cdf k n p -/
  nbcdf : ℚ → ℚ → ℚ → ℚ
  /-- np.log10 -/
  log10 : ℚ → ℚ
  /-- statsmodels multipletests(·, method="fdr_bh") adjusted p-values -/
  bh : List ℚ → List ℚ

/-- Three-way zip, mirroring numpy elementwise broadcasting over three
equally long arrays (truncates at the shortest, like `List.zipWith`). -/
def zipWith3 (f : α → β → γ → δ) : List α → List β → List γ → List δ
  | a :: as, b :: bs, c :: cs => f a b c :: zipWith3 f as bs cs
  | _, _, _ => []

/-- core.py `score(th, mu, y, w)`:
`sum(w * (digamma(th+y) - digamma(th) + log(th) + 1 - log(th+mu) - (y+th)/(mu+th)))`. -/
def score (E : NumEnv) (th : ℚ) (mu y w : List ℚ) : ℚ :=
  (zipWith3 (fun wi yi mi =>
    wi * (E.dg (th + yi) - E.dg th + E.ln th + 1 - E.ln (th + mi) - (yi + th) / (mi + th)))
    w y mu).sum

/-- core.py `info(th, mu, y, w)` summand body (numpy-float evaluation):
`sum(w * (-trigamma(th+y) + trigamma(th) - 1/th + 2/(mu+th) - (y+th)/(mu+th)**2))`. -/
def info (E : NumEnv) (th : ℚ) (mu y w : List ℚ) : ℚ :=
  (zipWith3 (fun wi yi mi =>
    wi * (-E.tg (th + yi) + E.tg th - 1 / th + 2 / (mi + th) - (yi + th) / (mi + th) ^ 2))
    w y mu).sum

/-- `np.finfo(np.float).eps ** 0.25` = (2⁻⁵²)^(1/4) = 2⁻¹³, exactly. -/
def epsQ : ℚ := 1 / 8192

/-- Mutable loop state of core.py `theta`: current estimate `t0`, last
Newton update `de`, iteration counter `it`. -/
structure ThetaState where
  t0 : ℚ
  de : ℚ
  it : ℕ
deriving DecidableEq

/-- One iteration of the `while` body in `theta`:
`t0 = abs(t0); de = score(t0,...)/info(t0,...); t0 = t0 + de`. -/
def thetaStep (E : NumEnv) (y mu w : List ℚ) (s : ThetaState) : ThetaState :=
  let t := |s.t0|
  let de := score E t mu y w / info E t mu y w
  ⟨t + de, de, s.it + 1⟩

/-- The `while (it < limit and abs(de) > eps)` loop of `theta`; the fuel
argument counts the remaining iterations up to the cap (`limit - it`). -/
def thetaLoop (E : NumEnv) (y mu w : List ℚ) : ℕ → ThetaState → ThetaState
  | 0, s => s
  | fuel + 1, s => if epsQ < |s.de| then thetaLoop E y mu w fuel (thetaStep E y mu w s) else s

/-- Moment-based starting point of `theta`:
`t0 = n / sum(weights * (y / mu - 1) ** 2)` with `n = sum(weights)`. -/
def thetaT0Init (y mu w : List ℚ) : ℚ :=
  w.sum / (zipWith3 (fun wi yi mi => wi * (yi / mi - 1) ^ 2) w y mu).sum

/-- Final loop state of `theta` (limit = 20 iterations, `de` starts at 1,
`weights = np.repeat(1, len(y))`). -/
def thetaFinal (E : NumEnv) (y mu : List ℚ) : ThetaState :=
  let w := List.replicate y.length (1 : ℚ)
  thetaLoop E y mu w 20 ⟨thetaT0Init y mu w, 1, 0⟩

/-- The standard-error computation `se = np.sqrt(1 / info(t0, mu, y, weights))`
at the end of `theta`.  When the estimate was truncated, the code has just
executed `t0 = 0`, binding `t0` to a Python int zero; inside `info` the
subexpression `1 / th` then divides two Python ints and raises
ZeroDivisionError.  In the non-truncated branch `t0` is a numpy float and
every division is numpy-float division (total, never raising). -/
def seOfTheta (E : NumEnv) (t0IsIntZero : Bool) (t0 : ℚ) (mu y w : List ℚ) : Except PyErr ℚ :=
  if t0IsIntZero then .error .zeroDivision
  else .ok (E.sqrtQ (1 / info E t0 mu y w))

/-- core.py `theta(y, mu)`: Newton iteration, sign truncation
(`if (t0 < 0): t0 = 0` with a printed warning), then standard error. -/
def theta (E : NumEnv) (y mu : List ℚ) : Except PyErr (ℚ × ℚ) :=
  let w := List.replicate y.length (1 : ℚ)
  let fin := thetaFinal E y mu
  let truncated := decide (fin.t0 < 0)
  let t0 := if fin.t0 < 0 then 0 else fin.t0
  (seOfTheta E truncated t0 mu y w).map (fun se => (t0, se))

/-! ### Dispersion estimator, specification side (spec.md section 4.1)

Definitions written from the words of the spec/claims: unit weights, first
moment-based start `θ₀ = n / Σ((y/μ−1)²)`, Newton updates
`θ ← abs(θ) + score(θ)/info(θ)` evaluated at the sign-flipped value, at most
20 iterations, early stop when the update magnitude is at most eps^0.25. -/

/-- Spec-side score with unit weights (spec formula for the profile
log-likelihood derivative). -/
def specScore (E : NumEnv) (t : ℚ) (y mu : List ℚ) : ℚ :=
  (List.zipWith (fun yi mi =>
    E.dg (t + yi) - E.dg t + E.ln t + 1 - E.ln (t + mi) - (yi + t) / (mi + t)) y mu).sum

/-- Spec-side information with unit weights. -/
def specInfo (E : NumEnv) (t : ℚ) (y mu : List ℚ) : ℚ :=
  (List.zipWith (fun yi mi =>
    -E.tg (t + yi) + E.tg t - 1 / t + 2 / (mi + t) - (yi + t) / (mi + t) ^ 2) y mu).sum

/-- Spec-side Newton update: set t to its absolute value, then add
score/information evaluated there; returns (new t, update). -/
def specThetaUpdate (E : NumEnv) (y mu : List ℚ) (t : ℚ) : ℚ × ℚ :=
  let a := |t|
  let de := specScore E a y mu / specInfo E a y mu
  (a + de, de)

/-- Spec-side iteration: state (t, last update, iteration count), at most
the given fuel further iterations, stopping early as soon as the update
magnitude is no longer above machine-epsilon^0.25. -/
def specThetaGo (E : NumEnv) (y mu : List ℚ) : ℕ → ℚ × ℚ × ℕ → ℚ × ℚ × ℕ
  | 0, s => s
  | fuel + 1, (t, de, k) =>
    if epsQ < |de| then specThetaGo E y mu fuel ((specThetaUpdate E y mu t).1, (specThetaUpdate E y mu t).2, k + 1)
    else (t, de, k)

/-- Spec-side estimator: start from θ₀ = n / Σ((y/μ−1)²) and iterate,
cap 20 iterations. -/
def specThetaFinal (E : NumEnv) (y mu : List ℚ) : ℚ × ℚ × ℕ :=
  specThetaGo E y mu 20
    ((y.length : ℚ) / (List.zipWith (fun yi mi => (yi / mi - 1) ^ 2) y mu).sum, 1, 0)

/-- Concrete environment exhibiting the truncation path of `theta`: digamma
and log vanish, trigamma is the linear map x ↦ -(2^25)·x.  On y = [2^20],
mu = [1] the first Newton update is a small negative number below the stop
threshold while the moment start is ≈ 2⁻⁴⁰, so the loop exits with a
negative estimate and the truncation branch runs. -/
def envTrunc : NumEnv where
  dg := fun _ => 0
  tg := fun x => -(2 ^ 25) * x
  ln := fun _ => 0
  sqrtQ := fun _ => 0
  nbcdf := fun _ _ _ => 0
  log10 := fun _ => 0
  bh := fun l => l

end StarrPeaker

deriving instance DecidableEq for Except

namespace StarrPeaker

set_option maxRecDepth 4000 in
/-- C2: the claim states that when the Newton iteration ends negative,
`theta` clamps to zero, warns, and still returns the pair (0, standard
error) without aborting.  The code does clamp (`t0 = 0`, a Python int) and
warn, but then evaluates `se = np.sqrt(1 / info(t0, ...))`; inside `info`
the subexpression `1 / th` divides two Python ints and raises
ZeroDivisionError, so `theta` aborts on every truncation.  This theorem
evaluates the embedded `theta` at a concrete input whose iteration ends
negative and shows it returns the ZeroDivisionError outcome instead of an
`(0, se)` value. -/
theorem theta_truncation_aborts :
    theta envTrunc [2 ^ 20] [1] = .error .zeroDivision ∧
      (thetaFinal envTrunc [2 ^ 20] [1]).t0 < 0 := by
  with_unfolding_all decide

/-- Unit weights are absorbed: a weighted three-way zip against
np.repeat(1, n) collapses to the unweighted two-way zip. -/
theorem zipWith3_replicate_one_mul (g : ℚ → ℚ → ℚ) :
    ∀ (l1 l2 : List ℚ),
      zipWith3 (fun wi ai bi => wi * g ai bi) (List.replicate l1.length 1) l1 l2 =
        List.zipWith g l1 l2 := by
  intro l1
  induction l1 with
  | nil => intro l2; rfl
  | cons a t ih =>
    intro l2
    cases l2 with
    | nil => rfl
    | cons b t2 => simp [zipWith3, List.replicate_succ, ih]

/-- core.py score with unit weights equals the spec-side score formula. -/
theorem score_replicate (E : NumEnv) (t : ℚ) (y mu : List ℚ) :
    score E t mu y (List.replicate y.length 1) = specScore E t y mu := by
  unfold score specScore
  rw [zipWith3_replicate_one_mul]

/-- core.py info with unit weights equals the spec-side information
formula. -/
theorem info_replicate (E : NumEnv) (t : ℚ) (y mu : List ℚ) :
    info E t mu y (List.replicate y.length 1) = specInfo E t y mu := by
  unfold info specInfo
  rw [zipWith3_replicate_one_mul]

/-- core.py moment-based starting point with unit weights equals the spec
formula θ₀ = n / Σ((y/μ−1)²). -/
theorem thetaT0Init_replicate (y mu : List ℚ) :
    thetaT0Init y mu (List.replicate y.length 1) =
      (y.length : ℚ) / (List.zipWith (fun yi mi => (yi / mi - 1) ^ 2) y mu).sum := by
  unfold thetaT0Init
  rw [zipWith3_replicate_one_mul]
  congr 1
  simp [List.sum_replicate]

/-- The embedded Newton loop of core.py theta agrees state-by-state with
the spec-side iteration. -/
theorem thetaLoop_eq_spec (E : NumEnv) (y mu : List ℚ) :
    ∀ (fuel : ℕ) (s : ThetaState),
      thetaLoop E y mu (List.replicate y.length 1) fuel s =
        ⟨(specThetaGo E y mu fuel (s.t0, s.de, s.it)).1,
          (specThetaGo E y mu fuel (s.t0, s.de, s.it)).2.1,
          (specThetaGo E y mu fuel (s.t0, s.de, s.it)).2.2⟩ := by
  intro fuel
  induction fuel with
  | zero => intro s; rfl
  | succ n ih =>
    intro s
    rw [thetaLoop, specThetaGo]
    by_cases h : epsQ < |s.de|
    · rw [if_pos h, if_pos h, ih]
      have hstep : ((thetaStep E y mu (List.replicate y.length 1) s).t0,
          (thetaStep E y mu (List.replicate y.length 1) s).de,
          (thetaStep E y mu (List.replicate y.length 1) s).it) =
          ((specThetaUpdate E y mu s.t0).1, (specThetaUpdate E y mu s.t0).2, s.it + 1) := by
        simp [thetaStep, specThetaUpdate, score_replicate, info_replicate]
      rw [hstep]
    · rw [if_neg h, if_neg h]

/-- The Newton loop performs at most fuel further iterations. -/
theorem thetaLoop_it_le (E : NumEnv) (y mu w : List ℚ) :
    ∀ (fuel : ℕ) (s : ThetaState), (thetaLoop E y mu w fuel s).it ≤ s.it + fuel := by
  intro fuel
  induction fuel with
  | zero => intro s; simp [thetaLoop]
  | succ n ih =>
    intro s
    rw [thetaLoop]
    by_cases h : epsQ < |s.de|
    · rw [if_pos h]
      have h2 := ih (thetaStep E y mu w s)
      have h3 : (thetaStep E y mu w s).it = s.it + 1 := rfl
      omega
    · rw [if_neg h]
      omega

/-- C6: core.py theta initialises t0 = n / Σ((y/mu − 1)²) with unit
weights, repeatedly updates t0 ← abs(t0) + score(t0)/info(t0), runs at most
20 iterations stopping early once the update magnitude is not above
machine-epsilon^0.25, and the value after the final update (before the
sign clamp) is the estimate it returns. -/
theorem theta_iteration_matches_spec (E : NumEnv) (y mu : List ℚ) :
    (((thetaFinal E y mu).t0, (thetaFinal E y mu).de, (thetaFinal E y mu).it)
        = specThetaFinal E y mu)
    ∧ (thetaFinal E y mu).it ≤ 20
    ∧ (0 ≤ (thetaFinal E y mu).t0 →
        theta E y mu = .ok ((thetaFinal E y mu).t0,
          E.sqrtQ (1 / info E (thetaFinal E y mu).t0 mu y (List.replicate y.length 1)))) := by
  refine ⟨?_, ?_, ?_⟩
  · simp only [thetaFinal, specThetaFinal, thetaLoop_eq_spec, thetaT0Init_replicate]
  · have h := thetaLoop_it_le E y mu (List.replicate y.length 1) 20
      ⟨thetaT0Init y mu (List.replicate y.length 1), 1, 0⟩
    simpa [thetaFinal] using h
  · intro h
    have hnot : ¬ (thetaFinal E y mu).t0 < 0 := not_lt.mpr h
    simp only [theta, seOfTheta]
    rw [decide_eq_false hnot, if_neg hnot]
    rfl

/-- Concrete environment for which the Newton loop of theta converges in
one step to a nonnegative value: trigamma is x ↦ -(2^40)·x, making the
information term huge and the first update tiny. -/
def envConv : NumEnv where
  dg := fun _ => 0
  tg := fun x => -(2 ^ 40) * x
  ln := fun _ => 0
  sqrtQ := fun _ => 0
  nbcdf := fun _ _ _ => 0
  log10 := fun _ => 0
  bh := fun l => l

set_option maxRecDepth 4000 in
/-- Witness for C6: at a concrete input where the final Newton value is
nonnegative, theta indeed returns it as the estimate. -/
theorem theta_iteration_matches_spec_witness :
    0 ≤ (thetaFinal envConv [2] [1]).t0 ∧
      theta envConv [2] [1] = .ok ((thetaFinal envConv [2] [1]).t0,
        envConv.sqrtQ (1 / info envConv (thetaFinal envConv [2] [1]).t0 [1] [2]
          (List.replicate (List.length ([2] : List ℚ)) 1))) :=
  ⟨by with_unfolding_all decide,
    (theta_iteration_matches_spec envConv [2] [1]).2.2 (by with_unfolding_all decide)⟩

/-! ### call_peak: negative-binomial refit parameterisation (claim C4) -/

/-- call_peak line 442, the argument of
sm.families.NegativeBinomial(alpha=1 / th0): an unguarded reciprocal of
the initial dispersion estimate.  numpy-float division by zero raises
nothing and yields inf, which is no rational number; the model returns
none in that case.  No conditional protects this use anywhere between the
theta call and this expression. -/
def negBinAlpha (th0 : ℚ) : Option ℚ :=
  if th0 = 0 then none else some (1 / th0)

/-- C4: the claim states that call_peak guards every use of 1/theta_0 so
that no division by zero occurs when th0 = 0.  The code computes
alpha = 1 / th0 with no guard, so at th0 = 0 the division by zero does
occur (numpy produces inf; no rational value exists). -/
theorem call_peak_alpha_unguarded : negBinAlpha 0 = none := rfl

/-! ### call_peak: per-bin significance (claim C5) -/

/-- call_peak line `prob = th / (th + y_hat)` (elementwise over the
predicted means). -/
def callPeakProb (th : ℚ) (yhat : List ℚ) : List ℚ :=
  yhat.map (fun m => th / (th + m))

/-- call_peak line `theta_hat = np.repeat(th, len(y_hat))`. -/
def callPeakThetaHat (th : ℚ) (yhat : List ℚ) : List ℚ :=
  List.replicate yhat.length th

/-- call_peak line `pval = 1 - nbinom.cdf(mat[nonZeroInput, 0] - 1,
n=theta_hat, p=prob)`, elementwise over the sufficiently-covered response
column ys and the predicted means yhat. -/
def callPeakPval (E : NumEnv) (th : ℚ) (ys yhat : List ℚ) : List ℚ :=
  zipWith3 (fun yi ti pi => 1 - E.nbcdf (yi - 1) ti pi)
    ys (callPeakThetaHat th yhat) (callPeakProb th yhat)

/-- Spec-side per-bin p-value: p = 1 − NB_CDF(y−1; n=θ, p=θ/(θ+ŷ)). -/
def specPval (E : NumEnv) (th : ℚ) (ys yhat : List ℚ) : List ℚ :=
  List.zipWith (fun yi mi => 1 - E.nbcdf (yi - 1) th (th / (th + mi))) ys yhat

/-- C5: the per-bin p-value computed by call_peak is exactly
1 − NB_CDF(y−1; n=θ, p=θ/(θ+ŷ)); moreover the parameterisation
(n=θ, p=θ/(θ+ŷ)) is the one whose negative-binomial mean n(1−p)/p equals
the fitted mean ŷ. -/
theorem call_peak_pval_formula (E : NumEnv) (th : ℚ) :
    (∀ (ys yhat : List ℚ), callPeakPval E th ys yhat = specPval E th ys yhat)
    ∧ (∀ yh : ℚ, th ≠ 0 → th + yh ≠ 0 →
        th * (1 - th / (th + yh)) / (th / (th + yh)) = yh) := by
  constructor
  · intro ys
    induction ys with
    | nil => intro yhat; rfl
    | cons yh yt ih =>
      intro yhat
      cases yhat with
      | nil => rfl
      | cons mh mt =>
        have hih := ih mt
        show (1 - E.nbcdf (yh - 1) th (th / (th + mh))) :: callPeakPval E th yt mt
            = (1 - E.nbcdf (yh - 1) th (th / (th + mh))) :: specPval E th yt mt
        rw [hih]
  · intro yh h1 h2
    field_simp

/-- Witness for C5: the mean identity at θ = 1, ŷ = 1 (the list-level
equality is hypothesis-free). -/
theorem call_peak_pval_formula_witness :
    callPeakPval envConv 1 [0] [1] = specPval envConv 1 [0] [1]
    ∧ (1 : ℚ) * (1 - 1 / (1 + 1)) / (1 / (1 + 1)) = 1 :=
  ⟨(call_peak_pval_formula envConv 1).1 [0] [1],
    (call_peak_pval_formula envConv 1).2 1 one_ne_zero (by norm_num)⟩

/-! ### call_peak: output phase (claim C1) -/

/-- A bin record of the bin BED file: chromosome, start, end. -/
structure Bin where
  chr : String
  start : ℤ
  stop : ℤ
deriving DecidableEq

/-- Lines of the .peak.bed output: one record per sufficiently-covered bin
whose adjusted p-value is at or below the threshold, carrying the appended
columns (p_score, q_score, pval, pval_adj).  Fixed-precision text
formatting is out of scope; a line is modelled as the tuple of the values
written. -/
def peakBedLines (binsF : List Bin) (ps qs pv pa : List ℚ) (thr : ℚ) :
    List (Bin × ℚ × ℚ × ℚ × ℚ) :=
  (List.zip binsF (List.zip ps (List.zip qs (List.zip pv pa)))).filterMap
    (fun x => if x.2.2.2.2 ≤ thr then some (x.1, x.2.1, x.2.2.1, x.2.2.2.1, x.2.2.2.2) else none)

/-- The .pval.bedGraph writing loop of call_peak: iterate the
sufficiently-covered bins, writing bin + abs(p_score[i]).  The p_score
argument is an Option: none models a Python name removed by a preceding
del statement, whose first read raises NameError; a too-short list raises
IndexError at the first missing index. -/
def pvalTrackLines : List Bin → Option (List ℚ) → Except PyErr (List (Bin × ℚ))
  | [], _ => .ok []
  | _ :: _, none => .error .nameError
  | _ :: _, some [] => .error .indexError
  | b :: bs, some (p :: ps) => (pvalTrackLines bs (some ps)).map (fun r => (b, |p|) :: r)

/-- Output phase of call_peak after a successful significance computation:
write the peak BED lines, then execute `del p_score, q_score` (so the
p_score binding is gone), then run the p-value track loop — which
therefore receives none for p_score. -/
def callPeakWriteTracks (binsF : List Bin) (ps qs pv pa : List ℚ) (thr : ℚ) :
    Except PyErr (List (Bin × ℚ × ℚ × ℚ × ℚ) × List (Bin × ℚ)) :=
  let peakBed := peakBedLines binsF ps qs pv pa thr
  (pvalTrackLines binsF none).map (fun track => (peakBed, track))

/-- C1: the claim states that after writing the peak BED file the driver
writes the p-value track and then proceeds to the merged/centered peak
files.  In the code `del p_score, q_score` precedes the track loop, whose
body reads p_score[i]; hence for every run with at least one
sufficiently-covered bin the track write raises NameError on its first
iteration and nothing after the peak BED file is produced. -/
theorem pval_track_write_raises (b : Bin) (bs : List Bin)
    (ps qs pv pa : List ℚ) (thr : ℚ) :
    callPeakWriteTracks (b :: bs) ps qs pv pa thr = .error .nameError := rfl

/-! ### call_peak: non-sliding bin classification (claim C7)

call_peak lines 403-414 scan the bin BED file with two mutable trackers,
`lastchr` (initially the empty string) and `lastbin` (initially 0): a bin
whose chromosome differs from `lastchr` is marked non-sliding and both
trackers reset; otherwise a bin whose start is at least `lastbin` is
marked non-sliding and `lastbin` is advanced to its end; all other bins
are sliding. -/

/-- The scan of the bin file performed by call_peak, with tracker state
(lastchr, lastbin). -/
def codeNSGo : String → ℤ → List Bin → List Bool
  | _, _, [] => []
  | lc, lb, b :: bs =>
    if b.chr ≠ lc then true :: codeNSGo b.chr b.stop bs
    else if lb ≤ b.start then true :: codeNSGo lc b.stop bs
    else false :: codeNSGo lc lb bs

/-- The nonSliding boolean mask computed by call_peak
(lastchr = "", lastbin = 0 initially). -/
def codeNonSliding (bins : List Bin) : List Bool := codeNSGo "" 0 bins

/-- Spec side: true when no previously seen bin (the processed prefix,
most recent first) lies on the given chromosome. -/
def specFirstOnChr (hist : List (Bin × Bool)) (c : String) : Bool :=
  hist.all (fun pb => decide (pb.1.chr ≠ c))

/-- Spec side: the most recently seen non-sliding bin on the given
chromosome, if any. -/
def specLastNS (hist : List (Bin × Bool)) (c : String) : Option Bin :=
  (hist.find? (fun pb => pb.2 && decide (pb.1.chr = c))).map Prod.fst

/-- Spec-side classification, written from the claim: a bin is
non-sliding exactly when it is the first bin seen on its chromosome or its
start is ≥ the end of the previously seen non-sliding bin on the same
chromosome.  The history carries each processed bin with its
classification, most recent first. -/
def specNSGo (hist : List (Bin × Bool)) : List Bin → List Bool
  | [] => []
  | b :: bs =>
    let ns : Bool := specFirstOnChr hist b.chr ||
      (match specLastNS hist b.chr with
        | some q => decide (q.stop ≤ b.start)
        | none => false)
    ns :: specNSGo ((b, ns) :: hist) bs

/-- Spec-side nonSliding mask (empty history at the start of the file). -/
def specNonSliding (bins : List Bin) : List Bool := specNSGo [] bins

/-- Chromosome-grouped bin files: no chromosome reappears after a
different chromosome has been seen.  State: current chromosome (none
before the first bin) and the set of previously finished chromosomes. -/
def groupedGo : Option String → List String → List Bin → Bool
  | _, _, [] => true
  | cur, seen, b :: bs =>
    if some b.chr = cur then groupedGo cur seen bs
    else if b.chr ∈ seen then false
    else groupedGo (some b.chr)
      (match cur with
        | none => seen
        | some c => c :: seen) bs

/-- A bin file is grouped when bins of the same chromosome are contiguous. -/
def grouped (bins : List Bin) : Bool := groupedGo none [] bins

/-! ### call_peak: bin filtering and row alignment (claim C9) -/

/-- itertools.compress / numpy boolean-mask row selection: keep elements
whose mask entry is true (truncating at the shorter list, as
itertools.compress does). -/
def compress : List α → List Bool → List α
  | x :: xs, b :: bs => if b then x :: compress xs bs else compress xs bs
  | _, _ => []

/-- A row of the merged call_peak matrix
mat = [output count y, exposure (normalized input), covariates...]. -/
structure BinRow where
  y : ℚ
  exposure : ℚ
  covs : List ℚ
deriving DecidableEq

/-- call_peak mask nonZeroInput = mat[:, 1] > minInput. -/
def nziMask (mat : List BinRow) (minInput : ℚ) : List Bool :=
  mat.map (fun r => decide (minInput < r.exposure))

/-- Rows used to build the regression DataFrame:
mat[nonZeroInput & nonSliding, :]. -/
def callPeakFitRows (mat : List BinRow) (bins : List Bin) (minInput : ℚ) : List BinRow :=
  compress mat (List.zipWith (· && ·) (nziMask mat minInput) (codeNonSliding bins))

/-- Rows used for prediction: mat[nonZeroInput, :]. -/
def callPeakPredRows (mat : List BinRow) (minInput : ℚ) : List BinRow :=
  compress mat (nziMask mat minInput)

/-- Response column passed to both theta estimations:
mat[nonZeroInput & nonSliding, :][:, 0]. -/
def callPeakThetaYs (mat : List BinRow) (bins : List Bin) (minInput : ℚ) : List ℚ :=
  (compress mat (List.zipWith (· && ·) (nziMask mat minInput) (codeNonSliding bins))).map BinRow.y

/-- Observed counts used by the significance computation:
mat[nonZeroInput, 0]. -/
def callPeakSigYs (mat : List BinRow) (minInput : ℚ) : List ℚ :=
  (compress mat (nziMask mat minInput)).map BinRow.y

/-- Filtering by the conjunction of two masks equals filtering by the
first mask and then by the second mask restricted to the first. -/
theorem compress_nil_mask (xs : List α) : compress xs [] = [] := by
  cases xs <;> rfl

theorem compress_and (xs : List α) : ∀ (a b : List Bool),
    compress xs (List.zipWith (· && ·) a b) = compress (compress xs a) (compress b a) := by
  induction xs with
  | nil => intro a b; cases a <;> cases b <;> rfl
  | cons x xs ih =>
    intro a b
    cases a with
    | nil => rfl
    | cons ab a =>
      cases b with
      | nil => cases ab <;> simp [compress, compress_nil_mask]
      | cons bb b => cases ab <;> cases bb <;> simp [compress, ih]

/-- Boolean-mask filtering keeps a subsequence of the original rows: row
order is preserved. -/
theorem compress_sublist : ∀ (xs : List α) (m : List Bool), List.Sublist (compress xs m) xs := by
  intro xs
  induction xs with
  | nil => intro m; cases m <;> exact List.Sublist.refl _
  | cons x xs ih =>
    intro m
    cases m with
    | nil => exact List.nil_sublist _
    | cons b bs =>
      cases b with
      | false =>
        show List.Sublist (compress xs bs) (x :: xs)
        exact List.Sublist.cons _ (ih bs)
      | true =>
        show List.Sublist (x :: compress xs bs) (x :: xs)
        exact List.Sublist.cons₂ _ (ih bs)

/-- Boolean-mask filtering commutes with pairing: filtering a zipped list
equals zipping the two filtered lists, so row alignment between companion
row-indexed lists survives the filter. -/
theorem compress_zip : ∀ (m : List Bool) (xs : List α) (ys : List β),
    compress (List.zip xs ys) m = List.zip (compress xs m) (compress ys m) := by
  intro m
  induction m with
  | nil => intro xs ys; cases xs <;> cases ys <;> rfl
  | cons b bs ih =>
    intro xs ys
    cases xs with
    | nil => rfl
    | cons x xs =>
      cases ys with
      | nil => cases b <;> simp [compress, List.zip_nil_right]
      | cons y ys =>
        cases b with
        | false =>
          show compress (List.zip xs ys) bs = List.zip (compress xs bs) (compress ys bs)
          exact ih xs ys
        | true =>
          show (x, y) :: compress (List.zip xs ys) bs
              = List.zip (x :: compress xs bs) (y :: compress ys bs)
          rw [ih xs ys]
          rfl

/-- C7-C9 shared fact is not needed; C9: the regression and both theta
estimations consume exactly the sufficiently-covered non-sliding rows,
prediction/significance consume exactly the sufficiently-covered rows, the
fit subset is the prediction subset further restricted by the non-sliding
mask, both are order-preserving subsequences of mat, and the filter keeps
any companion list aligned row-by-row. -/
theorem call_peak_row_subsets (mat : List BinRow) (bins : List Bin) (minq : ℚ) :
    callPeakFitRows mat bins minq
        = compress (callPeakPredRows mat minq) (compress (codeNonSliding bins) (nziMask mat minq))
    ∧ callPeakThetaYs mat bins minq = (callPeakFitRows mat bins minq).map BinRow.y
    ∧ callPeakSigYs mat minq = (callPeakPredRows mat minq).map BinRow.y
    ∧ List.Sublist (callPeakFitRows mat bins minq) mat
    ∧ List.Sublist (callPeakPredRows mat minq) mat
    ∧ ∀ (xs : List Bin), compress (List.zip mat xs) (nziMask mat minq)
        = List.zip (callPeakPredRows mat minq) (compress xs (nziMask mat minq)) := by
  refine ⟨?_, rfl, rfl, ?_, ?_, ?_⟩
  · exact compress_and mat (nziMask mat minq) (codeNonSliding bins)
  · exact compress_sublist mat _
  · exact compress_sublist mat _
  · intro xs
    exact compress_zip (nziMask mat minq) mat xs

/-! ### Claim C7: equivalence of the two non-sliding classifications on
chromosome-grouped files, and a counterexample on an interleaved file. -/

/-- From a successful spec-side lookup, extract the witnessing history
entry. -/
theorem specLastNS_elim {hist : List (Bin × Bool)} {c : String} {q : Bin}
    (h : specLastNS hist c = some q) :
    ∃ pb : Bin × Bool, pb ∈ hist ∧ pb.2 = true ∧ pb.1.chr = c ∧ pb.1 = q := by
  unfold specLastNS at h
  rcases Option.map_eq_some'.mp h with ⟨pb, hfind, hfst⟩
  refine ⟨pb, List.mem_of_find?_eq_some hfind, ?_, ?_, hfst⟩
  · have := List.find?_some hfind
    exact (Bool.and_eq_true _ _).mp this |>.1
  · have := List.find?_some hfind
    have h2 := (Bool.and_eq_true _ _).mp this |>.2
    exact of_decide_eq_true h2

/-- Scanner equivalence, generalised over the mid-file state.  Invariant:
the code trackers are (lc, lb); the history contains only bins of the
current chromosome lc or of previously finished chromosomes (seen); the
most recent non-sliding history bin on lc is q with q.stop = lb; the rest
of the file is grouped relative to (lc, seen). -/
theorem nsGo_eq : ∀ (bs : List Bin) (lc : String) (lb : ℤ) (seen : List String)
    (hist : List (Bin × Bool)) (q : Bin),
    groupedGo (some lc) seen bs = true →
    lc ∉ seen →
    specLastNS hist lc = some q →
    q.stop = lb →
    (∀ pb ∈ hist, pb.1.chr = lc ∨ pb.1.chr ∈ seen) →
    codeNSGo lc lb bs = specNSGo hist bs := by
  intro bs
  induction bs with
  | nil => intro lc lb seen hist q _ _ _ _ _; rfl
  | cons b bs ih =>
    intro lc lb seen hist q hgr hlc hfind hstop hhist
    by_cases hc : b.chr = lc
    · -- the bin continues the current chromosome run
      obtain ⟨pb0, hpbmem, hpbtrue, hpbchr, hpbq⟩ := specLastNS_elim hfind
      have hfirst : specFirstOnChr hist b.chr = false := by
        apply List.all_eq_false.mpr
        exact ⟨pb0, hpbmem, by simp [hpbchr, hc]⟩
      have hlast : specLastNS hist b.chr = some q := by rw [hc]; exact hfind
      have hgr2 : groupedGo (some lc) seen bs = true := by
        rw [groupedGo, if_pos (by rw [hc])] at hgr
        exact hgr
      rw [codeNSGo, if_neg (by simpa using hc)]
      simp only [specNSGo, hfirst, hlast, Bool.false_or]
      rw [hstop]
      by_cases hstart : lb ≤ b.start
      · rw [if_pos hstart, decide_eq_true hstart]
        congr 1
        apply ih lc b.stop seen ((b, true) :: hist) b hgr2 hlc
        · simp [specLastNS, List.find?, hc]
        · rfl
        · intro pb hmem
          rcases List.mem_cons.mp hmem with h | h
          · left; rw [h, hc]
          · exact hhist pb h
      · rw [if_neg hstart, decide_eq_false hstart]
        congr 1
        apply ih lc lb seen ((b, false) :: hist) q hgr2 hlc
        · simp only [specLastNS, List.find?, Bool.false_and]
          exact hfind
        · exact hstop
        · intro pb hmem
          rcases List.mem_cons.mp hmem with h | h
          · left; rw [h, hc]
          · exact hhist pb h
    · -- the bin opens a new chromosome run
      have hne : ¬ (some b.chr = some lc) := by simpa using hc
      rw [groupedGo, if_neg hne] at hgr
      by_cases hmem : b.chr ∈ seen
      · rw [if_pos hmem] at hgr
        exact absurd hgr (by simp)
      · rw [if_neg hmem] at hgr
        have hfirst : specFirstOnChr hist b.chr = true := by
          apply List.all_eq_true.mpr
          intro pb hmem'
          rcases hhist pb hmem' with h | h
          · refine decide_eq_true ?_
            intro hx
            exact hc (by rw [← hx, h])
          · refine decide_eq_true ?_
            intro hx
            exact hmem (hx ▸ h)
        rw [codeNSGo, if_pos (by simpa using hc)]
        simp only [specNSGo, hfirst, Bool.true_or]
        congr 1
        apply ih b.chr b.stop (lc :: seen) ((b, true) :: hist) b hgr
        · intro hx
          rcases List.mem_cons.mp hx with h | h
          · exact hc h
          · exact hmem h
        · simp [specLastNS, List.find?]
        · rfl
        · intro pb hmem'
          rcases List.mem_cons.mp hmem' with h | h
          · left; rw [h]
          · rcases hhist pb h with h2 | h2
            · right
              rw [h2]
              exact List.mem_cons_self lc seen
            · right
              exact List.mem_cons_of_mem lc h2

/-- C7 (amended): on bin files whose chromosomes are grouped (bins of one
chromosome contiguous) with nonempty chromosome names, call_peak marks a
bin non-sliding exactly when it is the first bin seen on its chromosome or
its start is ≥ the end of the previously seen non-sliding bin on the same
chromosome. -/
theorem nonSliding_eq_spec (bins : List Bin)
    (h1 : grouped bins = true) (h2 : ∀ b ∈ bins, b.chr ≠ "") :
    codeNonSliding bins = specNonSliding bins := by
  cases bins with
  | nil => rfl
  | cons b bs =>
    have hbchr : b.chr ≠ "" := h2 b (List.mem_cons_self b bs)
    have hgr : groupedGo (some b.chr) [] bs = true := by
      unfold grouped groupedGo at h1
      rw [if_neg (by simp)] at h1
      rw [if_neg (by simp)] at h1
      exact h1
    unfold codeNonSliding specNonSliding
    rw [codeNSGo, if_pos hbchr]
    have hfirst : specFirstOnChr [] b.chr = true := rfl
    simp only [specNSGo, hfirst, Bool.true_or]
    congr 1
    apply nsGo_eq bs b.chr b.stop [] [(b, true)] b hgr (by simp)
    · simp [specLastNS, List.find?]
    · rfl
    · intro pb hmem
      left
      rcases List.mem_singleton.mp hmem with h
      rw [h]

/-- Interleaved-chromosome bin file on which the code and the claimed rule
disagree: the third bin returns to chr1 with start 50 < 100, the end of
the previous chr1 non-sliding bin, so the claim calls it sliding; the code
only compares against the immediately preceding line's chromosome (chr2)
and marks it non-sliding. -/
def binsInterleaved : List Bin :=
  [⟨"chr1", 0, 100⟩, ⟨"chr2", 0, 100⟩, ⟨"chr1", 50, 150⟩]

/-- C7 counterexample: a bin file ordered by coordinate within each
chromosome on which the code classification differs from the claimed
classification. -/
theorem nonSliding_claim_counterexample :
    List.Pairwise (fun a b : Bin => a.chr = b.chr → a.start ≤ b.start) binsInterleaved
    ∧ codeNonSliding binsInterleaved = [true, true, true]
    ∧ specNonSliding binsInterleaved = [true, true, false]
    ∧ codeNonSliding binsInterleaved ≠ specNonSliding binsInterleaved := by
  refine ⟨?_, by with_unfolding_all decide, by with_unfolding_all decide, ?_⟩
  · with_unfolding_all decide
  · intro h
    have := h
    rw [show codeNonSliding binsInterleaved = [true, true, true] by with_unfolding_all decide,
      show specNonSliding binsInterleaved = [true, true, false] by with_unfolding_all decide] at this
    simp at this

/-- Grouped bin file used to witness the amended C7. -/
def binsGrouped : List Bin :=
  [⟨"chr1", 0, 100⟩, ⟨"chr1", 50, 150⟩, ⟨"chr1", 100, 200⟩, ⟨"chr2", 0, 100⟩]

/-- Witness for the amended C7 at a concrete grouped file. -/
theorem nonSliding_eq_spec_witness :
    grouped binsGrouped = true
    ∧ (∀ b ∈ binsGrouped, b.chr ≠ "")
    ∧ codeNonSliding binsGrouped = specNonSliding binsGrouped :=
  ⟨by with_unfolding_all decide, by with_unfolding_all decide,
    nonSliding_eq_spec binsGrouped (by with_unfolding_all decide) (by with_unfolding_all decide)⟩

/-! ### center_peak (claims C3, C8, C10)

center_peak intersects the merged-peak file with the coverage bedGraph
(wa=True, wb=True reports full records of both sides), builds a dict from
peak id (chrom_start_end) to the intersecting coverage records, and for
each peak fills a per-base array mat over the peak, sums it over every
width-W window and reports the span from the first to the last maximal
window.  A peak id absent from the dict raises KeyError before the dead
`len(cov) == 0` warning branch can run.  The slice assignment
`mat[c.start-start : c.stop-start] = depth` uses Python slice semantics:
negative bounds count from the end of the array and are then clamped. -/

/-- A record of the coverage bedGraph track:
(chromosome, start, end, depth). -/
structure Cov where
  chr : String
  start : ℤ
  stop : ℤ
  depth : ℤ
deriving DecidableEq

/-- A merged-peak record: (chromosome, start, end) plus the aggregated
score columns p[3:], carried opaquely. -/
structure Peak where
  chr : String
  start : ℤ
  stop : ℤ
  rest : List String
deriving DecidableEq

/-- bedtools intersect overlap test: same chromosome, at least one
overlapping base. -/
def overlaps (p : Peak) (c : Cov) : Bool :=
  decide (p.chr = c.chr) && decide (p.start < c.stop) && decide (c.start < p.stop)

/-- The coverage dictionary of center_peak: for a peak id
(chromosome, start, end), the intersecting coverage records in iteration
order (peaks outer loop, coverage inner loop, equal ids appended in
order, exactly as the dict is built). -/
def covFor (peaks : List Peak) (covs : List Cov) (p : Peak) : List Cov :=
  ((peaks.map (fun q =>
      (covs.filter (overlaps q)).map (fun c => ((q.chr, q.start, q.stop), c)))).flatten).filterMap
    (fun kc => if kc.1 = (p.chr, p.start, p.stop) then some kc.2 else none)

/-- Python slice-bound normalisation for an array of length n: a negative
bound counts from the end, then the bound is clamped into [0, n]. -/
def pyIdx (n a : ℤ) : ℤ := if a < 0 then max (n + a) 0 else min a n

/-- numpy slice assignment mat[a:b] = v: positions inside the normalised
bound pair take v, all others keep their value; the length is unchanged. -/
def fillSlice (m : List ℤ) (a b v : ℤ) : List ℤ :=
  (List.range m.length).map (fun (i : ℕ) =>
    if pyIdx (m.length : ℤ) a ≤ (i : ℤ) ∧ (i : ℤ) < pyIdx (m.length : ℤ) b then v
    else m.getD i 0)

/-- np.max of a list; the callers below apply it only to nonempty lists
(np.max of an empty array raises, handled at the call site). -/
def listMax (l : List ℤ) : ℤ := l.foldl max (l.headD 0)

/-- The per-base array mat of center_peak: np.zeros(end - start) followed
by the slice assignment mat[c.start-start : c.stop-start] = c.depth for
each record of the dict entry, in order. -/
def matOf (cv : List Cov) (p : Peak) : List ℤ :=
  cv.foldl (fun acc c => fillSlice acc (c.start - p.start) (c.stop - p.start) c.depth)
    (List.replicate (p.stop - p.start).toNat 0)

/-- The window-sum array of center_peak:
depth[idx] = sum(mat[idx : idx + windowSize]). -/
def depthFun (W : ℤ) (cv : List Cov) (p : Peak) (idx : ℕ) : ℤ :=
  (((matOf cv p).drop idx).take W.toNat).sum

/-- np.argwhere(depth == np.max(depth)): the offsets of the maximum-sum
windows, in increasing order. -/
def codeMaxIdxs (W : ℤ) (cv : List Cov) (p : Peak) : List ℕ :=
  (List.range (p.stop - p.start - W + 1).toNat).filter
    (fun i => decide (depthFun W cv p i =
      listMax ((List.range (p.stop - p.start - W + 1).toNat).map (depthFun W cv p))))

/-- center_peak body for one peak given its dict entry cv: an absent entry
(no intersecting coverage) raises KeyError; np.zeros raises ValueError on
a negative size and np.max raises ValueError on an empty window array, so
a window-count end-start-W+1 of at most 0 raises; otherwise the output
record runs from the start of the first maximal window (peakstarts[0,0])
to the end of the last maximal window (peakstarts[-1,0] + windowSize). -/
def centerPeakOne (W : ℤ) (cv : List Cov) (p : Peak) : Except PyErr Peak :=
  match cv with
  | [] => .error .keyError
  | _ :: _ =>
    if p.stop - p.start < 0 then .error .valueError
    else if p.stop - p.start - W + 1 ≤ 0 then .error .valueError
    else .ok ⟨p.chr, p.start + ((codeMaxIdxs W cv p).headD 0 : ℕ),
      p.start + ((codeMaxIdxs W cv p).getLastD 0 : ℕ) + W, p.rest⟩

/-- center_peak over the whole merged-peak file: each peak is processed in
order against its dictionary entry; a raised exception aborts the loop
(and the run). -/
def centerPeak (W : ℤ) (peaks : List Peak) (covs : List Cov) : Except PyErr (List Peak) :=
  peaks.mapM (fun p => centerPeakOne W (covFor peaks covs p) p)

/-- Spec-side coverage depth at a genomic position: the depth of the last
record containing it, 0 when uncovered (bedGraph records are disjoint, so
this is the coverage function of the track). -/
def covDepthAt (cv : List Cov) (pos : ℤ) : ℤ :=
  cv.foldl (fun a c => if c.start ≤ pos ∧ pos < c.stop then c.depth else a) 0

/-- Spec-side coverage sum of the width-W window at offset idx in the
peak. -/
def specWinSum (cv : List Cov) (p : Peak) (W : ℤ) (idx : ℕ) : ℤ :=
  ((List.range W.toNat).map (fun (i : ℕ) => covDepthAt cv (p.start + (idx : ℤ) + (i : ℤ)))).sum

/-- Spec-side offsets of the maximum-sum windows. -/
def specMaxIdxs (W : ℤ) (cv : List Cov) (p : Peak) : List ℕ :=
  (List.range (p.stop - p.start - W + 1).toNat).filter
    (fun i => decide (specWinSum cv p W i =
      listMax ((List.range (p.stop - p.start - W + 1).toNat).map (specWinSum cv p W))))

/-- Spec-side centred record: from the start of the first maximum-sum
window to the end of the last maximum-sum window. -/
def specCenterOut (W : ℤ) (cv : List Cov) (p : Peak) : Peak :=
  ⟨p.chr, p.start + ((specMaxIdxs W cv p).headD 0 : ℕ),
    p.start + ((specMaxIdxs W cv p).getLastD 0 : ℕ) + W, p.rest⟩

/-- Peaks and coverage for the C3 evaluation: the first peak has no
intersecting coverage record, the second does. -/
def peakNoCov : Peak := ⟨"chr1", 0, 10, []⟩

/-- Second peak of the C3 evaluation (its dict entry is nonempty). -/
def peakWithCov : Peak := ⟨"chr2", 0, 10, []⟩

/-- Coverage track of the C3 evaluation: intersects only the second peak. -/
def covListC3 : List Cov := [⟨"chr2", 0, 10, 4⟩]

/-- C3: the claim states that a merged peak without intersecting coverage
is warned about and skipped while the remaining peaks are still centred.
In the code the dict lookup coverage[pid] raises KeyError for such a peak
(the warning branch guarded by len(cov) == 0 is unreachable), so the whole
centering run aborts: here the first peak has no intersection and the
second (coverable) peak produces no output either. -/
theorem center_peak_no_intersect_raises :
    covFor [peakNoCov, peakWithCov] covListC3 peakNoCov = []
    ∧ centerPeak 5 [peakNoCov, peakWithCov] covListC3 = .error .keyError := by
  with_unfolding_all decide

/-- C10: a merged peak strictly shorter than the window width whose dict
entry is nonempty makes center_peak raise (negative-size or empty
window-sum array) instead of emitting a centred record: the window count
end − start − W + 1 is not positive, so np.zeros raises ValueError on a
negative size and np.max raises ValueError on the empty array. -/
theorem center_peak_short_peak_raises (W : ℤ) (cv : List Cov) (p : Peak)
    (hcv : cv ≠ []) (hshort : p.stop - p.start < W) :
    centerPeakOne W cv p = .error .valueError := by
  cases cv with
  | nil => exact absurd rfl hcv
  | cons c cs =>
    simp only [centerPeakOne]
    by_cases h0 : p.stop - p.start < 0
    · rw [if_pos h0]
    · rw [if_neg h0, if_pos (by omega)]

/-- Short peak for the C10 witness (length 300 < window 500). -/
def peakShort : Peak := ⟨"chr1", 100, 400, []⟩

/-- Nonempty dict entry for the C10 witness. -/
def covShort : List Cov := [⟨"chr1", 100, 400, 7⟩]

/-- Witness for C10 at the default window width 500. -/
theorem center_peak_short_peak_raises_witness :
    covShort ≠ [] ∧ peakShort.stop - peakShort.start < 500
    ∧ centerPeakOne 500 covShort peakShort = .error .valueError :=
  ⟨by with_unfolding_all decide, by with_unfolding_all decide,
    center_peak_short_peak_raises 500 covShort peakShort
      (by with_unfolding_all decide) (by with_unfolding_all decide)⟩

/-- Peak of the C8 counterexample (length 6, window 5). -/
def peakCtex : Peak := ⟨"chr1", 100, 106, []⟩

/-- Coverage of the C8 counterexample: one flat record of depth 10
spanning the whole peak but starting 3 bases before it. -/
def covCtex : List Cov := [⟨"chr1", 97, 200, 10⟩]

/-- C8 counterexample: the coverage record starts before the peak, so the
slice assignment mat[-3:103] writes the depth at the wrong (end-anchored)
positions; the computed window sums are not the coverage sums, all-tied
flat coverage is broken, and the output is not the claimed full span
(claimed ⟨chr1, 100, 106⟩, code emits ⟨chr1, 101, 106⟩). -/
theorem center_peak_claim_counterexample :
    centerPeak 5 [peakCtex] covCtex = .ok [⟨"chr1", 101, 106, []⟩]
    ∧ specCenterOut 5 covCtex peakCtex = ⟨"chr1", 100, 106, []⟩
    ∧ (⟨"chr1", 101, 106, []⟩ : Peak) ≠ ⟨"chr1", 100, 106, []⟩ := by
  with_unfolding_all decide

/-! ### Claim C8 support: the filled array equals the coverage function
when every record lies inside the peak. -/

/-- fillSlice preserves the array length. -/
theorem fillSlice_length (m : List ℤ) (a b v : ℤ) :
    (fillSlice m a b v).length = m.length := by
  simp [fillSlice]

/-- In-range slice bounds are left unchanged by Python normalisation. -/
theorem pyIdx_of_bounds {n a : ℤ} (h0 : 0 ≤ a) (h1 : a ≤ n) : pyIdx n a = a := by
  unfold pyIdx
  rw [if_neg (not_lt.mpr h0)]
  exact min_eq_left h1

/-- Pointwise description of one slice assignment. -/
theorem fillSlice_getD (m : List ℤ) (a b v : ℤ) (i : ℕ) (hi : i < m.length) :
    (fillSlice m a b v).getD i 0 =
      if pyIdx (m.length : ℤ) a ≤ (i : ℤ) ∧ (i : ℤ) < pyIdx (m.length : ℤ) b then v
      else m.getD i 0 := by
  unfold fillSlice
  rw [List.getD_eq_getElem?_getD, List.getElem?_map, List.getElem?_range hi]
  rfl

/-- The fold of slice assignments preserves the array length. -/
theorem foldl_fill_length (start : ℤ) :
    ∀ (cv : List Cov) (m : List ℤ),
      (cv.foldl (fun acc c => fillSlice acc (c.start - start) (c.stop - start) c.depth) m).length
        = m.length := by
  intro cv
  induction cv with
  | nil => intro m; rfl
  | cons c cs ih => intro m; rw [List.foldl_cons, ih, fillSlice_length]

/-- Pointwise description of the whole fill loop: when every record lies
inside the array, position i ends up holding the last depth written over
it (the scalar fold on the right). -/
theorem foldl_fill_getD (start : ℤ) (n : ℕ) :
    ∀ (cv : List Cov) (m : List ℤ), m.length = n →
      (∀ c ∈ cv, 0 ≤ c.start - start ∧ c.start ≤ c.stop ∧ c.stop - start ≤ (n : ℤ)) →
      ∀ i : ℕ, i < n →
        (cv.foldl (fun acc c => fillSlice acc (c.start - start) (c.stop - start) c.depth) m).getD i 0
          = cv.foldl
              (fun a c => if c.start ≤ start + (i : ℤ) ∧ start + (i : ℤ) < c.stop then c.depth else a)
              (m.getD i 0) := by
  intro cv
  induction cv with
  | nil => intro m _ _ i _; rfl
  | cons c cs ih =>
    intro m hlen hb i hi
    rw [List.foldl_cons, List.foldl_cons]
    have hc := hb c (List.mem_cons_self c cs)
    have hfl : (fillSlice m (c.start - start) (c.stop - start) c.depth).length = n := by
      rw [fillSlice_length]; exact hlen
    rw [ih (fillSlice m (c.start - start) (c.stop - start) c.depth) hfl
      (fun x hx => hb x (List.mem_cons_of_mem c hx)) i hi]
    congr 1
    rw [fillSlice_getD m _ _ _ i (by omega), hlen,
      pyIdx_of_bounds (by omega) (by omega), pyIdx_of_bounds (by omega) (by omega)]
    exact if_congr (by omega) rfl rfl

/-- The sum of a window slice equals the sum of the pointwise reads. -/
theorem sum_take_drop (l : List ℤ) (idx w : ℕ) (h : idx + w ≤ l.length) :
    ((l.drop idx).take w).sum = ((List.range w).map (fun j => l.getD (idx + j) 0)).sum := by
  congr 1
  apply List.ext_getElem
  · simp only [List.length_take, List.length_drop, List.length_map, List.length_range]
    omega
  · intro j h1 h2
    have hjw : j < w := by
      simpa using h2
    have hjl : idx + j < l.length := by omega
    rw [List.getElem_take, List.getElem_drop]
    rw [List.getElem_map, List.getElem_range]
    rw [List.getD_eq_getElem l 0 hjl]

/-- Folding max over a constant list returns the constant. -/
theorem foldl_max_const : ∀ (l : List ℤ) (c : ℤ), (∀ x ∈ l, x = c) → l.foldl max c = c := by
  intro l
  induction l with
  | nil => intro c _; rfl
  | cons x xs ih =>
    intro c h
    rw [List.foldl_cons, h x (List.mem_cons_self x xs), max_self]
    exact ih c (fun y hy => h y (List.mem_cons_of_mem x hy))

/-- np.max of a nonempty constant list is the constant. -/
theorem listMax_const (l : List ℤ) (c : ℤ) (hne : l ≠ []) (h : ∀ x ∈ l, x = c) :
    listMax l = c := by
  cases l with
  | nil => exact absurd rfl hne
  | cons x xs =>
    unfold listMax
    rw [List.headD_cons, h x (List.mem_cons_self x xs)]
    apply foldl_max_const
    intro y hy
    rcases List.mem_cons.mp hy with h1 | h1
    · exact h1
    · exact h y (List.mem_cons_of_mem x h1)

/-- When every record of the dict entry lies inside the peak, the filled
array realises the coverage function of the track at each offset. -/
theorem matOf_getD (cv : List Cov) (p : Peak)
    (hcont : ∀ c ∈ cv, p.start ≤ c.start ∧ c.start ≤ c.stop ∧ c.stop ≤ p.stop)
    (i : ℕ) (hi : i < (p.stop - p.start).toNat) :
    (matOf cv p).getD i 0 = covDepthAt cv (p.start + (i : ℤ)) := by
  unfold matOf
  rw [foldl_fill_getD p.start ((p.stop - p.start).toNat) cv _ (by simp)
    (fun c hc => by have := hcont c hc; omega) i hi]
  have hrep : (List.replicate (p.stop - p.start).toNat (0 : ℤ)).getD i 0 = 0 := by
    rw [List.getD_eq_getElem?_getD, List.getElem?_replicate]
    split <;> rfl
  rw [hrep]
  rfl

/-- The filled array has the length of the peak. -/
theorem matOf_length (cv : List Cov) (p : Peak) :
    (matOf cv p).length = (p.stop - p.start).toNat := by
  unfold matOf
  rw [foldl_fill_length, List.length_replicate]

/-- Under containment, each code window sum is the spec coverage sum of
that window. -/
theorem depthFun_eq_specWinSum (W : ℤ) (cv : List Cov) (p : Peak)
    (hW : 1 ≤ W) (hL : W ≤ p.stop - p.start)
    (hcont : ∀ c ∈ cv, p.start ≤ c.start ∧ c.start ≤ c.stop ∧ c.stop ≤ p.stop)
    (idx : ℕ) (hidx : idx < (p.stop - p.start - W + 1).toNat) :
    depthFun W cv p idx = specWinSum cv p W idx := by
  unfold depthFun
  have hlen : idx + W.toNat ≤ (matOf cv p).length := by
    rw [matOf_length]
    omega
  rw [sum_take_drop (matOf cv p) idx W.toNat hlen]
  unfold specWinSum
  congr 1
  apply List.map_congr_left
  intro j hj
  have hj2 : j < W.toNat := List.mem_range.mp hj
  rw [matOf_getD cv p hcont (idx + j) (by omega)]
  congr 1
  push_cast
  ring

/-- Under containment, the code offsets of maximal windows are the spec
offsets of maximal windows. -/
theorem codeMaxIdxs_eq_spec (W : ℤ) (cv : List Cov) (p : Peak)
    (hW : 1 ≤ W) (hL : W ≤ p.stop - p.start)
    (hcont : ∀ c ∈ cv, p.start ≤ c.start ∧ c.start ≤ c.stop ∧ c.stop ≤ p.stop) :
    codeMaxIdxs W cv p = specMaxIdxs W cv p := by
  unfold codeMaxIdxs specMaxIdxs
  have hmapeq : (List.range (p.stop - p.start - W + 1).toNat).map (depthFun W cv p)
      = (List.range (p.stop - p.start - W + 1).toNat).map (specWinSum cv p W) :=
    List.map_congr_left (fun i hi =>
      depthFun_eq_specWinSum W cv p hW hL hcont i (List.mem_range.mp hi))
  apply List.filter_congr
  intro i hi
  rw [depthFun_eq_specWinSum W cv p hW hL hcont i (List.mem_range.mp hi), hmapeq]

/-- C8 (amended): for a merged peak at least as long as the window width,
with a nonempty coverage-dictionary entry all of whose records lie inside
the peak, center_peak computes the true coverage sum of every width-W
window contained in the peak and outputs the interval from the start of
the first maximum-sum window to the end of the last maximum-sum window;
in particular when all windows tie the output interval is the full peak
span. -/
theorem center_peak_centers_on_max_window (W : ℤ) (cv : List Cov) (p : Peak)
    (hne : cv ≠ []) (hW : 1 ≤ W) (hL : W ≤ p.stop - p.start)
    (hcont : ∀ c ∈ cv, p.start ≤ c.start ∧ c.start ≤ c.stop ∧ c.stop ≤ p.stop) :
    centerPeakOne W cv p = .ok (specCenterOut W cv p)
    ∧ ((∀ i : ℕ, i < (p.stop - p.start - W + 1).toNat →
          specWinSum cv p W i = specWinSum cv p W 0) →
        specCenterOut W cv p = ⟨p.chr, p.start, p.stop, p.rest⟩) := by
  constructor
  · cases cv with
    | nil => exact absurd rfl hne
    | cons c cs =>
      simp only [centerPeakOne]
      rw [if_neg (by omega), if_neg (by omega)]
      rw [codeMaxIdxs_eq_spec W (c :: cs) p hW hL hcont]
      rfl
  · intro htie
    have hm : ((p.stop - p.start - W + 1).toNat : ℤ) = p.stop - p.start - W + 1 :=
      Int.toNat_of_nonneg (by omega)
    obtain ⟨k, hk⟩ : ∃ k, (p.stop - p.start - W + 1).toNat = k + 1 := by
      have : 0 < (p.stop - p.start - W + 1).toNat := by omega
      exact ⟨(p.stop - p.start - W + 1).toNat - 1, by omega⟩
    have hall : ∀ x ∈ (List.range (p.stop - p.start - W + 1).toNat).map (specWinSum cv p W),
        x = specWinSum cv p W 0 := by
      intro x hx
      rcases List.mem_map.mp hx with ⟨i, hi, rfl⟩
      exact htie i (List.mem_range.mp hi)
    have hnem : (List.range (p.stop - p.start - W + 1).toNat).map (specWinSum cv p W) ≠ [] := by
      simp only [ne_eq, List.map_eq_nil_iff, List.range_eq_nil]
      omega
    have hmx : listMax ((List.range (p.stop - p.start - W + 1).toNat).map (specWinSum cv p W))
        = specWinSum cv p W 0 := listMax_const _ _ hnem hall
    have hfilt : specMaxIdxs W cv p = List.range (p.stop - p.start - W + 1).toNat := by
      unfold specMaxIdxs
      apply List.filter_eq_self.mpr
      intro i hi
      rw [hmx, htie i (List.mem_range.mp hi)]
      exact decide_eq_true rfl
    unfold specCenterOut
    rw [hfilt, hk]
    have hhead : (List.range (k + 1)).headD 0 = 0 := by
      rw [List.range_succ_eq_map]
      rfl
    have hlast : (List.range (k + 1)).getLastD 0 = k := by
      rw [List.range_succ]
      exact List.getLastD_concat _ _ _
    rw [hhead, hlast]
    have hkval : (k : ℤ) = p.stop - p.start - W := by omega
    simp only [Peak.mk.injEq]
    refine ⟨trivial, by omega, by omega, trivial⟩

/-- Peak of the C8 witness: length 6, window width 5, flat coverage depth
10 exactly spanning the peak — every window ties, the output is the full
span. -/
def peakFlat : Peak := ⟨"chr1", 100, 106, []⟩

/-- Coverage-dictionary entry of the C8 witness. -/
def covFlat : List Cov := [⟨"chr1", 100, 106, 10⟩]

/-- Witness for the amended C8: hypotheses hold at the flat instance, the
code output equals the spec output, and the all-tie case collapses to the
full peak span ⟨chr1, 100, 106⟩. -/
theorem center_peak_centers_on_max_window_witness :
    covFlat ≠ [] ∧ (1 : ℤ) ≤ 5 ∧ (5 : ℤ) ≤ peakFlat.stop - peakFlat.start
    ∧ (∀ c ∈ covFlat, peakFlat.start ≤ c.start ∧ c.start ≤ c.stop ∧ c.stop ≤ peakFlat.stop)
    ∧ centerPeakOne 5 covFlat peakFlat = .ok (specCenterOut 5 covFlat peakFlat)
    ∧ specCenterOut 5 covFlat peakFlat = ⟨peakFlat.chr, peakFlat.start, peakFlat.stop, peakFlat.rest⟩ :=
  ⟨by with_unfolding_all decide, by norm_num, by with_unfolding_all decide,
    by with_unfolding_all decide,
    (center_peak_centers_on_max_window 5 covFlat peakFlat
      (by with_unfolding_all decide) (by norm_num) (by with_unfolding_all decide)
      (by with_unfolding_all decide)).1,
    (center_peak_centers_on_max_window 5 covFlat peakFlat
      (by with_unfolding_all decide) (by norm_num) (by with_unfolding_all decide)
      (by with_unfolding_all decide)).2 (by with_unfolding_all decide)⟩

end StarrPeaker